import Mathlib

/-!
# Verification of the fintracker monthly-snapshot aggregation and metrics layer

Shallow embedding of the core data-pipeline functions of the repository:

* `src/utils/etl/asset_classifier.py` — `classify_asset_types` and its rule tables;
* `src/utils/etl/data_loader.py` / `src/utils/data_loader.py` — the duplicate-row
  resolution step of `load_data`;
* `src/utils/data_processing.py` — `get_monthly_aggregation`,
  `calculate_asset_type_metrics`, `calculate_allocation_metrics`;
* `src/utils/metrics.py` — `calculate_allocation_metrics`;
* `src/utils/etl/monthly_metrics.py` — the drawdown columns of
  `calculate_monthly_metrics`, with the caller-visible dataframe state threaded
  explicitly to capture in-place column assignment.

Currency amounts are modelled as rationals (`ℚ`); pandas `NaN` cells are
modelled as `Option` (`none` = missing / not-a-number); Python `None` results
are `Option.none`.  Timestamps are calendar dates `(year, month, day)` and
`pandas .dt.to_period("M")` is projection to the `(year, month)` pair.
-/

namespace FinTracker

/-! ## Calendar model -/

/-- A calendar month, the result of `Timestamp.dt.to_period("M")`. -/
structure Month where
  y : Nat
  m : Nat
deriving DecidableEq, Repr

/-- A calendar date (`Timestamp` after `pd.to_datetime`). -/
structure Date where
  y : Nat
  m : Nat
  d : Nat
deriving DecidableEq, Repr

/-- Truncate a date to its calendar month (`.dt.to_period("M")`). -/
def Date.month (t : Date) : Month := ⟨t.y, t.m⟩

/-- Strict chronological order on months (pandas `Period` comparison). -/
def Month.ltP (a b : Month) : Prop :=
  a.y < b.y ∨ (a.y = b.y ∧ a.m < b.m)

instance (a b : Month) : Decidable (Month.ltP a b) := by
  unfold Month.ltP; infer_instance

/-- Chronological order on dates (pandas `Timestamp` comparison). -/
def Date.leP (a b : Date) : Prop :=
  a.y < b.y ∨ (a.y = b.y ∧ (a.m < b.m ∨ (a.m = b.m ∧ a.d ≤ b.d)))

instance (a b : Date) : Decidable (Date.leP a b) := by
  unfold Date.leP; infer_instance

/-! ## Case-insensitive substring and word matching

`Series.str.contains(pat, case=False)` with `regex=False`-like literal patterns
is case-insensitive substring search; the classifier's regex patterns all have
the shape `\b(w1|w2|...)\b`, i.e. whole-word (word-boundary delimited)
case-insensitive search for one of a list of phrases.  We model `\w` as
ASCII alphanumeric or underscore, which covers every string in the rule
tables. -/

/-- Regex `\w`: a word character. -/
def isWordChar (c : Char) : Bool := c.isAlphanum || c = '_'

/-- Case-insensitive equality of characters. -/
def charEqCI (a b : Char) : Bool := a.toLower = b.toLower

/-- Does `p` occur, case-insensitively, at the head of `l`? -/
def headMatchCI : List Char → List Char → Bool
  | [], _ => true
  | _ :: _, [] => false
  | a :: p, b :: l => charEqCI a b && headMatchCI p l

/-- Case-insensitive substring occurrence of `p` somewhere in `l`. -/
def subMatchCI (p : List Char) : List Char → Bool
  | [] => p.isEmpty
  | c :: t => headMatchCI p (c :: t) || subMatchCI p t

/-- Model of `Series.str.contains(pat, case=False)` on a literal pattern:
case-insensitive substring containment. -/
def containsCI (s pat : String) : Bool := subMatchCI pat.toList s.toList

/-- Does `p` match at the head of `l`, with a word boundary required after the
match (regex `p\b` anchored at the current position)?  Every phrase in the rule
tables ends in a word character, so the boundary holds exactly when the match
ends at the end of the string or before a non-word character. -/
def headWordMatchCI : List Char → List Char → Bool
  | [], [] => true
  | [], c :: _ => !(isWordChar c)
  | _ :: _, [] => false
  | a :: p, b :: l => charEqCI a b && headWordMatchCI p l

/-- Scan `l` for a whole-word occurrence of `p`; `prev` is the character just
before the current position (`none` at the start of the string).  Every phrase
in the rule tables begins with a word character, so the boundary before the
match holds exactly when the position is at the start or preceded by a
non-word character. -/
def wordScanCI (p : List Char) : Option Char → List Char → Bool
  | _, [] => false
  | prev, c :: t =>
    ((match prev with
      | none => true
      | some pc => !(isWordChar pc)) && headWordMatchCI p (c :: t))
    || wordScanCI p (some c) t

/-- Model of `Series.str.contains(r"\b(phrase)\b", case=False, regex=True)` for a single
alternative: case-insensitive whole-word occurrence of `phrase` in `s`. -/
def containsWordCI (s phrase : String) : Bool :=
  wordScanCI phrase.toList none s.toList

/-! ## Asset classifier — `src/utils/etl/asset_classifier.py`

`get_asset_classification_rules` returns a dict from asset type to a rule set
of exact matches (substring, case-insensitive), regex patterns (word-boundary
alternations, modelled as lists of phrases) and platform names.  Python dicts
iterate in insertion order: Cash, Pensions, Investments. -/

/-- One entry of `get_asset_classification_rules`. -/
structure RuleSet where
  exact_matches : List String
  patterns : List (List String)
  platforms : List String

/-- Model of `get_asset_classification_rules`, in dict insertion order. -/
def get_asset_classification_rules : List (String × RuleSet) :=
  [ ("Cash",
     { exact_matches :=
         ["GBP", "USD", "EUR", "Cash", "Current Account", "Savings Account",
          "Checking Account", "Money Market", "Liquid", "Instant Access",
          "GBP Cash", "USD Cash", "EUR Cash", "Pound Sterling", "Dollar", "Euro"]
       patterns :=
         [["cash", "currency", "money", "bank", "account", "savings", "checking", "liquid"],
          ["gbp", "usd", "eur", "pound", "dollar", "euro"],
          ["current", "instant access", "money market"]]
       platforms := ["HSBC", "Wise", "Revolut", "Monzo", "Starling", "Barclays", "Santander"] }),
    ("Pensions",
     { exact_matches :=
         ["Pension", "SIPP", "Retirement", "401k", "IRA", "Roth IRA",
          "Workplace Pension", "Personal Pension", "Defined Benefit",
          "Defined Contribution", "Annuity", "NEST", "Auto Enrolment"]
       patterns :=
         [["pension", "retirement", "sip", "401k", "ira", "annuity"],
          ["defined benefit", "defined contribution", "workplace pension"],
          ["nest", "auto enrolment", "employer pension"]]
       platforms := ["Wahed", "Standard Life", "Aviva", "Scottish Widows", "Legal & General", "NEST"] }),
    ("Investments",
     { exact_matches :=
         ["Stock", "ETF", "Mutual Fund", "Bond", "Crypto", "Bitcoin", "Ethereum",
          "Index Fund", "Equity", "Shares", "Commodity", "Real Estate", "Property",
          "Gold", "Silver", "Oil", "Gas", "REIT", "Investment Trust", "Fund",
          "BTC", "ETH", "ADA", "DOT", "SOL", "BNB", "USDT", "USDC"]
       patterns :=
         [["stock", "etf", "fund", "bond", "crypto", "bitcoin", "ethereum", "index", "equity", "share"],
          ["commodity", "real estate", "property", "gold", "silver", "oil", "gas", "reit"],
          ["investment", "trading", "portfolio", "asset", "security"],
          ["btc", "eth", "ada", "dot", "sol", "bnb", "usdt", "usdc"]]
       platforms := ["Coinbase", "IBKR", "Trading212", "Vanguard", "Fidelity", "Hargreaves Lansdown", "AJ Bell"] }) ]

/-- Does an asset name trigger a rule set (any exact match as substring, or any
pattern phrase as whole word)?  Mirrors the two inner loops of the primary
classification stage. -/
def matchesRuleSet (asset : String) (rs : RuleSet) : Bool :=
  rs.exact_matches.any (fun em => containsCI asset em)
  || rs.patterns.any (fun grp => grp.any (fun ph => containsWordCI asset ph))

/-- Primary classification stage of `classify_asset_types` (lines 79–91):
each rule set in order overwrites `Asset_Type` for rows its asset-name rules
match, starting from `"Other"`.  A later matching rule set therefore wins. -/
def assetStage (asset : String) : String :=
  get_asset_classification_rules.foldl
    (fun acc r => if matchesRuleSet asset r.2 then r.1 else acc) "Other"

/-- Secondary (platform) stage of `classify_asset_types` (lines 93–99): each
rule set in order overwrites the type for rows whose `Platform` is in its
platform list.  In the source it is applied only to rows the primary stage
left at `"Other"`. -/
def platformStage (platform : String) (t : String) : String :=
  get_asset_classification_rules.foldl
    (fun acc r => if platform ∈ r.2.platforms then r.1 else acc) t

/-- Model of `crypto_patterns` of the special-handling stage (line 103). -/
def crypto_patterns : List String :=
  ["btc", "eth", "ada", "dot", "sol", "bnb", "usdt", "usdc"]

/-- Model of `stock_patterns` of the special-handling stage (line 109). -/
def stock_patterns : List String :=
  ["inc", "corp", "ltd", "plc", "co", "company", "stock", "shares"]

/-- Model of `currency_patterns` of the special-handling stage (line 115). -/
def currency_patterns : List String :=
  ["gbp", "usd", "eur", "gbp", "pound", "dollar", "euro"]

/-- Special-handling stage of `classify_asset_types` (lines 101–118), applied
to every row regardless of earlier stages: crypto then stock patterns force
`"Investments"`, currency patterns force `"Cash"`. -/
def applySpecialHandling (asset : String) (t : String) : String :=
  let t1 := if crypto_patterns.any (fun ph => containsWordCI asset ph) then "Investments" else t
  let t2 := if stock_patterns.any (fun ph => containsWordCI asset ph) then "Investments" else t1
  if currency_patterns.any (fun ph => containsWordCI asset ph) then "Cash" else t2

/-- Per-row semantics of `classify_asset_types`: the vectorised column
assignments of the source are row-independent, so the whole function is the
row-wise map of this function over `(Platform, Asset)`. -/
def classifyRow (platform asset : String) : String :=
  let t1 := assetStage asset
  let t2 := if t1 = "Other" then platformStage platform t1 else t1
  applySpecialHandling asset t2

/-! ## Ledger rows and frames -/

/-- A cleaned ledger row before classification (`Platform`, `Asset`, numeric
`Value`, datetime `Timestamp`). -/
structure RawRow where
  platform : String
  asset : String
  value : ℚ
  ts : Date
deriving DecidableEq, Repr

/-- A ledger row after classification: the same columns plus `Asset_Type`. -/
structure CRow where
  platform : String
  asset : String
  value : ℚ
  ts : Date
  asset_type : String
deriving DecidableEq, Repr

/-- A dataframe that either still lacks or already carries the `Asset_Type`
column. -/
inductive Frame where
  | raw (rows : List RawRow)
  | classified (rows : List CRow)
deriving DecidableEq, Repr

/-- Whether the frame carries an `Asset_Type` column. -/
def Frame.hasAssetTypeCol : Frame → Bool
  | .raw _ => false
  | .classified _ => true

/-- Classify one raw row, attaching its `Asset_Type`. -/
def classifyRawRow (r : RawRow) : CRow :=
  ⟨r.platform, r.asset, r.value, r.ts, classifyRow r.platform r.asset⟩

/-- Model of `classify_asset_types(df)`: `None` and empty inputs are returned unchanged
(lines 68–69); otherwise every row receives an `Asset_Type`. -/
def classify_asset_types : Option (List RawRow) → Option Frame
  | none => none
  | some [] => some (.raw [])
  | some rows => some (.classified (rows.map classifyRawRow))

/-! ## Duplicate-row resolution — `load_data`

`src/utils/etl/data_loader.py` (lines 293–300) keys the deduplication on
`(Month, Asset)`; `src/utils/data_loader.py` (lines 20–27) keys it on
`(Month, Platform, Asset)`.  Both sort by `Timestamp` and keep the last row of
each group, and both skip the step entirely when no group has more than one
row.  `groupby(...).last()` emits one row per distinct key; the source emits
groups in key-sorted order while the model emits them in key-occurrence
order — every property stated below is insensitive to row order. -/

/-- Insert a row into a timestamp-sorted list, keeping earlier rows first on
ties (`sort_values("Timestamp")`; tie order is unspecified in the source and
irrelevant under the distinct-timestamp hypotheses used below). -/
def insertByTs (x : CRow) : List CRow → List CRow
  | [] => [x]
  | y :: ys => if Date.leP x.ts y.ts then x :: y :: ys else y :: insertByTs x ys

/-- Sort rows chronologically by `Timestamp`. -/
def sortByTimestamp : List CRow → List CRow
  | [] => []
  | x :: xs => insertByTs x (sortByTimestamp xs)

/-- Model of `(counts > 1).any()`: does some group key occur in more than one row? -/
def hasDupBy {κ : Type} [DecidableEq κ] (key : CRow → κ) (l : List CRow) : Bool :=
  l.any (fun r => decide (1 < (l.filter (fun x => decide (key x = key r))).length))

/-- Model of `groupby(keys).last()`: for each distinct key, the last row of the frame
with that key. -/
def groupLast {κ : Type} [DecidableEq κ] (key : CRow → κ) (l : List CRow) : List CRow :=
  ((l.map key).dedup).filterMap
    (fun k => (l.filter (fun r => decide (key r = k))).getLast?)

/-- Group key of the ETL loader: `['Month', 'Asset']` — no `Platform`. -/
def etlKey (r : CRow) : Month × String := (r.ts.month, r.asset)

/-- Group key of `src/utils/data_loader.py`: `['Month', 'Platform', 'Asset']`. -/
def fullKey (r : CRow) : Month × String × String := (r.ts.month, r.platform, r.asset)

/-- The dedup step of `load_data`, generic in the group key: when some group
has more than one row, sort by `Timestamp` and keep the last row per group;
otherwise return the frame unchanged. -/
def load_data_dedup_by {κ : Type} [DecidableEq κ] (key : CRow → κ) (l : List CRow) :
    List CRow :=
  if hasDupBy key l then groupLast key (sortByTimestamp l) else l

/-- The dedup step of `load_data` in `src/utils/etl/data_loader.py`
(keyed on `['Month', 'Asset']`). -/
def etl_load_data_dedup (l : List CRow) : List CRow := load_data_dedup_by etlKey l

/-- The dedup step of `load_data` in `src/utils/data_loader.py`
(keyed on `['Month', 'Platform', 'Asset']`). -/
def utils_load_data_dedup (l : List CRow) : List CRow := load_data_dedup_by fullKey l

/-! ## Monthly aggregation — `get_monthly_aggregation` (`data_processing.py`)

The value column passes through `pd.to_numeric(..., errors="coerce")`, so a
cell is `Option ℚ` and `none` (NaN) cells are excluded from sums
(`groupby(...).sum()` skips NaN, an empty group sums to 0).  The grouping
columns are modelled by an arbitrary key function. -/

/-- A row as seen by the aggregator: `Timestamp`, coerced `Value`, and the
possible grouping columns. -/
structure ARow where
  ts : Date
  value : Option ℚ
  asset_type : String
  platform : String
deriving DecidableEq, Repr

/-- Model of `groupby(...)["Value"].sum()` over one group: NaN cells skipped. -/
def sumValues (l : List ARow) : ℚ := (l.filterMap (·.value)).sum

/-- Model of `get_monthly_aggregation(df, group_by_cols)`: truncate to month, group by
`(Month, key)`, sum `Value`.  (The source emits groups key-sorted; the model
emits them in occurrence order — irrelevant to the stated properties.) -/
def get_monthly_aggregation_grouped {κ : Type} [DecidableEq κ]
    (rows : List ARow) (key : ARow → κ) : List ((Month × κ) × ℚ) :=
  ((rows.map (fun r => (r.ts.month, key r))).dedup).map
    (fun k => (k, sumValues (rows.filter (fun r => decide ((r.ts.month, key r) = k)))))

/-- Model of `get_monthly_aggregation(df)` with no grouping columns. -/
def get_monthly_aggregation (rows : List ARow) : List (Month × ℚ) :=
  ((rows.map (fun r => r.ts.month)).dedup).map
    (fun mo => (mo, sumValues (rows.filter (fun r => decide (r.ts.month = mo)))))

/-! ## MoM / YTD metrics — `calculate_asset_type_metrics` (`data_processing.py`) -/

/-- Maximum of a month list, starting from a current maximum `c`. -/
def maxMonthA (c : Month) : List Month → Month
  | [] => c
  | m :: l => maxMonthA (if Month.ltP c m then m else c) l

/-- Model of `Series.max()` on a month column (`NaN`, i.e. `none`, on an empty one). -/
def maxMonth? : List Month → Option Month
  | [] => none
  | m :: l => some (maxMonthA m l)

/-- Minimum of a month list, starting from a current minimum `c`. -/
def minMonthA (c : Month) : List Month → Month
  | [] => c
  | m :: l => minMonthA (if Month.ltP m c then m else c) l

/-- Model of `Series.min()` on a month column (`NaN`, i.e. `none`, on an empty one). -/
def minMonth? : List Month → Option Month
  | [] => none
  | m :: l => some (minMonthA m l)

/-- The month column `df['Timestamp'].dt.to_period('M')`. -/
def monthsOf (l : List CRow) : List Month := l.map (fun r => r.ts.month)

/-- Sum of `Value` over the rows of one calendar month. -/
def sumInMonth (l : List CRow) (mo : Month) : ℚ :=
  ((l.filter (fun r => decide (r.ts.month = mo))).map (·.value)).sum

/-- Model of `df[df['Month'] < latest]['Month'].max()`: the previous tracked month. -/
def prevMonthOf (l : List CRow) (latest : Month) : Option Month :=
  maxMonth? ((monthsOf l).filter (fun x => decide (Month.ltP x latest)))

/-- Model of `df[df['Month'].dt.year == current_year]['Month'].min()`: the first
tracked month of the latest month's calendar year. -/
def ytdStartOf (l : List CRow) (latest : Month) : Option Month :=
  minMonth? ((monthsOf l).filter (fun x => decide (x.y = latest.y)))

/-- The metrics dictionary of `calculate_asset_type_metrics` (the fields the
claims concern; `avg_monthly_value`, `max_value`, `min_value` and
`volatility` — a standard deviation, outside ℚ — are omitted). -/
structure AssetTypeMetrics where
  latest_value : ℚ
  mom_change : Option ℚ
  ytd_change : Option ℚ
  platforms : Nat
  assets : Nat
  months_tracked : Nat
deriving DecidableEq, Repr

/-- The all-zero metrics returned for a `None`/empty/absent-type input. -/
def emptyAssetTypeMetrics : AssetTypeMetrics := ⟨0, none, none, 0, 0, 0⟩

/-- Model of `filter_by_asset_type(df, asset_type)` (`data_processing.py` lines 16–30). -/
def filter_by_asset_type (df : List CRow) (asset_type : String) : List CRow :=
  df.filter (fun r => decide (r.asset_type = asset_type))

/-- Model of `calculate_asset_type_metrics(df, asset_type)` (`data_processing.py`
lines 168–255): MoM against the previous tracked month, guarded by
`previous_value > 0`; YTD against the first tracked month of the latest
month's calendar year, guarded by `ytd_start_value > 0`. -/
def calculate_asset_type_metrics (df : List CRow) (asset_type : String) :
    AssetTypeMetrics :=
  let asset_df := filter_by_asset_type df asset_type
  match maxMonth? (monthsOf asset_df) with
  | none => emptyAssetTypeMetrics
  | some latest_month =>
    let latest_data := asset_df.filter (fun r => decide (r.ts.month = latest_month))
    let latest_value := sumInMonth asset_df latest_month
    let mom_change : Option ℚ :=
      match prevMonthOf asset_df latest_month with
      | none => none
      | some p =>
        let pv := sumInMonth asset_df p
        if 0 < pv then some ((latest_value - pv) / pv * 100) else none
    let ytd_change : Option ℚ :=
      match ytdStartOf asset_df latest_month with
      | none => none
      | some s =>
        let sv := sumInMonth asset_df s
        if 0 < sv then some ((latest_value - sv) / sv * 100) else none
    { latest_value := latest_value
      mom_change := mom_change
      ytd_change := ytd_change
      platforms := (latest_data.map (·.platform)).dedup.length
      assets := (latest_data.map (·.asset)).dedup.length
      months_tracked := (monthsOf asset_df).dedup.length }

/-! ## Allocation metrics — `calculate_allocation_metrics` (`data_processing.py`) -/

/-- Per-asset-type entry of the allocation metrics dictionary. -/
structure AllocEntry where
  current : ℚ
  allocation : ℚ
  mom_pct_increase : Option ℚ
  ytd_pct_increase : Option ℚ
deriving DecidableEq, Repr

/-- The `'Total'` entry of the allocation metrics dictionary. -/
structure TotalEntry where
  current : ℚ
  mom_increase : Option ℚ
  ytd_increase : Option ℚ
deriving DecidableEq, Repr

/-- Result of `calculate_allocation_metrics` (`data_processing.py`): the
metrics dictionary plus the three reference months.  On empty input the
source returns `{}, pd.Timestamp.now(), None, None`; the wall-clock timestamp
is modelled as `none`. -/
structure AllocationMetrics where
  total : TotalEntry
  entries : List (String × AllocEntry)
  latest_month : Option Month
  previous_month : Option Month
  ytd_start_month : Option Month
deriving DecidableEq, Repr

/-- Model of `calculate_allocation_metrics(df)` (`data_processing.py` lines 380–470):
allocation percentage guarded by `total_current > 0` (else 0); MoM/YTD
changes guarded by strictly positive reference sums (else `None`). -/
def dp_calculate_allocation_metrics (df : List CRow) : AllocationMetrics :=
  match maxMonth? (monthsOf df) with
  | none => ⟨⟨0, none, none⟩, [], none, none, none⟩
  | some latest_month =>
    let previous_month := prevMonthOf df latest_month
    let ytd_start_month := ytdStartOf df latest_month
    let latest_data := df.filter (fun r => decide (r.ts.month = latest_month))
    let total_current := sumInMonth df latest_month
    let mom_increase : Option ℚ :=
      match previous_month with
      | none => none
      | some p =>
        let tp := sumInMonth df p
        if 0 < tp then some (total_current - tp) else none
    let ytd_increase : Option ℚ :=
      match ytd_start_month with
      | none => none
      | some s =>
        let tys := sumInMonth df s
        if 0 < tys then some (total_current - tys) else none
    let mkEntry := fun (ty : String) =>
      let current := ((latest_data.filter (fun r => decide (r.asset_type = ty))).map (·.value)).sum
      let allocation := if 0 < total_current then current / total_current * 100 else 0
      let mom_pct : Option ℚ :=
        match previous_month with
        | none => none
        | some p =>
          let pv := ((df.filter (fun r => decide (r.ts.month = p ∧ r.asset_type = ty))).map (·.value)).sum
          if 0 < pv then some ((current - pv) / pv * 100) else none
      let ytd_pct : Option ℚ :=
        match ytd_start_month with
        | none => none
        | some s =>
          let sv := ((df.filter (fun r => decide (r.ts.month = s ∧ r.asset_type = ty))).map (·.value)).sum
          if 0 < sv then some ((current - sv) / sv * 100) else none
      (ty, AllocEntry.mk current allocation mom_pct ytd_pct)
    { total := ⟨total_current, mom_increase, ytd_increase⟩
      entries := ["Cash", "Investments", "Pensions"].map mkEntry
      latest_month := some latest_month
      previous_month := previous_month
      ytd_start_month := ytd_start_month }

/-! ## Allocation metrics — `calculate_allocation_metrics` (`metrics.py`)

The near-duplicate module version.  Its guards are Python truthiness
(`if x` on a number: non-zero; on `None`: false), and missing reference
values default to `0` rather than `None` in the per-type branch. -/

/-- Per-asset-type entry of the `metrics.py` allocation dictionary. -/
structure MAllocEntry where
  current : ℚ
  allocation : ℚ
  mom_increase : ℚ
  mom_pct_increase : Option ℚ
  allocation_change : Option ℚ
  ytd_increase : ℚ
  ytd_pct_increase : Option ℚ
  ytd_allocation_change : Option ℚ
deriving DecidableEq, Repr

/-- The `'Total'` entry of the `metrics.py` allocation dictionary. -/
structure MTotalEntry where
  current : ℚ
  mom_increase : Option ℚ
  mom_pct_increase : Option ℚ
  ytd_increase : Option ℚ
  ytd_pct_increase : Option ℚ
deriving DecidableEq, Repr

/-- Result of `calculate_allocation_metrics` (`metrics.py`).  The source
raises on an empty frame (`latest_month.year` on NaN); the model returns the
empty record in that case and no claim touches it. -/
structure MAllocationMetrics where
  entries : List (String × MAllocEntry)
  total : MTotalEntry
  latest_month : Option Month
  prev_month : Option Month
  ytd_start_month : Option Month
deriving DecidableEq, Repr

/-- Model of `calculate_allocation_metrics(df)` (`metrics.py` lines 68–137). -/
def m_calculate_allocation_metrics (df : List CRow) : MAllocationMetrics :=
  match maxMonth? (monthsOf df) with
  | none => ⟨[], ⟨0, none, none, none, none⟩, none, none, none⟩
  | some latest_month =>
    let prev_month := prevMonthOf df latest_month
    let ytd_start_month := ytdStartOf df latest_month
    let latest_df := df.filter (fun r => decide (r.ts.month = latest_month))
    let total_latest := sumInMonth df latest_month
    let total_prev : Option ℚ := prev_month.map (fun p => sumInMonth df p)
    let total_ytd : Option ℚ := ytd_start_month.map (fun s => sumInMonth df s)
    let asset_types := (latest_df.map (·.asset_type)).dedup
    let mkEntry := fun (ty : String) =>
      let latest_val := ((latest_df.filter (fun r => decide (r.asset_type = ty))).map (·.value)).sum
      let prev_val : ℚ :=
        match prev_month with
        | none => 0
        | some p => ((df.filter (fun r => decide (r.ts.month = p ∧ r.asset_type = ty))).map (·.value)).sum
      let ytd_val : ℚ :=
        match ytd_start_month with
        | none => 0
        | some s => ((df.filter (fun r => decide (r.ts.month = s ∧ r.asset_type = ty))).map (·.value)).sum
      let allocation := if total_latest ≠ 0 then latest_val / total_latest * 100 else 0
      let prev_allocation : ℚ :=
        match total_prev with
        | some tp => if tp ≠ 0 then prev_val / tp * 100 else 0
        | none => 0
      let ytd_allocation : ℚ :=
        match total_ytd with
        | some t0 => if t0 ≠ 0 then ytd_val / t0 * 100 else 0
        | none => 0
      let mom_increase := latest_val - prev_val
      let mom_pct_increase : Option ℚ :=
        if prev_val ≠ 0 then some (mom_increase / prev_val * 100) else none
      let ytd_increase := latest_val - ytd_val
      let ytd_pct_increase : Option ℚ :=
        if ytd_val ≠ 0 then some (ytd_increase / ytd_val * 100) else none
      let allocation_change : Option ℚ :=
        if prev_allocation ≠ 0 then some (allocation - prev_allocation) else none
      let ytd_allocation_change : Option ℚ :=
        if ytd_allocation ≠ 0 then some (allocation - ytd_allocation) else none
      (ty, MAllocEntry.mk latest_val allocation mom_increase mom_pct_increase
             allocation_change ytd_increase ytd_pct_increase ytd_allocation_change)
    let total_mom_increase : Option ℚ := total_prev.map (fun tp => total_latest - tp)
    let total_mom_pct : Option ℚ :=
      match total_prev with
      | some tp => if tp ≠ 0 then some ((total_latest - tp) / tp * 100) else none
      | none => none
    let total_ytd_increase : Option ℚ := total_ytd.map (fun t0 => total_latest - t0)
    let total_ytd_pct : Option ℚ :=
      match total_ytd with
      | some t0 => if t0 ≠ 0 then some ((total_latest - t0) / t0 * 100) else none
      | none => none
    { entries := asset_types.map mkEntry
      total := ⟨total_latest, total_mom_increase, total_mom_pct, total_ytd_increase, total_ytd_pct⟩
      latest_month := some latest_month
      prev_month := prev_month
      ytd_start_month := ytd_start_month }

/-! ## Drawdown and monthly metrics — `calculate_monthly_metrics`
(`etl/monthly_metrics.py`)

`Peak_Value = Portfolio_Value.expanding().max()` is the causal running
maximum; `Drawdown = (Portfolio_Value - Peak_Value) / Peak_Value`.  numpy
float division by zero raises nothing and produces NaN (`0/0`) or ±infinity
(`x/0`); either way the cell holds no finite number, modelled `none`.
`Max_Drawdown = Drawdown.expanding().min()` skips NaN cells. -/

/-- Running maxima of a list after a seen-so-far maximum `c`. -/
def runningMaxAux (c : ℚ) : List ℚ → List ℚ
  | [] => []
  | x :: xs => max c x :: runningMaxAux (max c x) xs

/-- Model of `Series.expanding().max()`: the causal (inclusive, no look-ahead) running
maximum. -/
def runningMax : List ℚ → List ℚ
  | [] => []
  | x :: xs => x :: runningMaxAux x xs

/-- The `Drawdown` column: `(value - running_max) / running_max`, with a zero
running max yielding a non-finite cell (`none`). -/
def drawdownCol (l : List ℚ) : List (Option ℚ) :=
  List.zipWith (fun v p => if p = 0 then none else some ((v - p) / p)) l (runningMax l)

/-- Running minima of a list after a seen-so-far minimum `c`. -/
def expandingMinAux (c : ℚ) : List ℚ → List ℚ
  | [] => []
  | x :: xs => min c x :: expandingMinAux (min c x) xs

/-- Model of `Series.expanding().min()` on a NaN-free column. -/
def expandingMin : List ℚ → List ℚ
  | [] => []
  | x :: xs => x :: expandingMinAux x xs

/-- Model of `Series.expanding().min()` with NaN cells skipped (pandas `skipna`). -/
def expandingMinOptAux (c : Option ℚ) : List (Option ℚ) → List (Option ℚ)
  | [] => []
  | x :: xs =>
    let m : Option ℚ :=
      match c, x with
      | none, v => v
      | some a, none => some a
      | some a, some b => some (min a b)
    m :: expandingMinOptAux m xs

/-- Model of `Drawdown.expanding().min()`. -/
def expandingMinOpt (l : List (Option ℚ)) : List (Option ℚ) :=
  expandingMinOptAux none l

/-- A row as seen by `calculate_monthly_metrics`: `Timestamp` and numeric
`Value`. -/
structure DRow where
  ts : Date
  value : ℚ
deriving DecidableEq, Repr

/-- The caller-visible dataframe: its rows plus whether (and with what
content) a `Month` column has been assigned to it.  Column assignments in the
source (`df['Month'] = ...`) mutate the caller's object, so functions below
return the caller's frame explicitly. -/
structure PFrame where
  rows : List DRow
  monthCol : Option (List Month)
deriving DecidableEq, Repr

/-- Non-strict chronological order on months. -/
def Month.leP (a b : Month) : Prop :=
  a.y < b.y ∨ (a.y = b.y ∧ a.m ≤ b.m)

instance (a b : Month) : Decidable (Month.leP a b) := by
  unfold Month.leP; infer_instance

/-- Insert a month into a sorted month list. -/
def insertMonth (x : Month) : List Month → List Month
  | [] => [x]
  | y :: ys => if Month.leP x y then x :: y :: ys else y :: insertMonth x ys

/-- Sort a month list chronologically (`groupby` emits keys sorted;
`sort_values('Month')` re-sorts). -/
def sortMonths : List Month → List Month
  | [] => []
  | m :: l => insertMonth m (sortMonths l)

/-- The month-sorted `(Month, Portfolio_Value)` series produced by
`groupby('Month').agg({'Value': 'sum'})` followed by `sort_values('Month')`. -/
def monthlySeries (rows : List DRow) : List (Month × ℚ) :=
  (sortMonths ((rows.map (fun r => r.ts.month)).dedup)).map
    (fun mo => (mo, ((rows.filter (fun r => decide (r.ts.month = mo))).map (·.value)).sum))

/-- The columns of the `calculate_monthly_metrics` result that the claims
concern (returns, rolling windows and ratio columns are omitted). -/
structure MonthlyMetricsResult where
  months : List Month
  portfolio_value : List ℚ
  peak_value : List ℚ
  drawdown : List (Option ℚ)
  max_drawdown : List (Option ℚ)
deriving DecidableEq, Repr

/-- Model of `calculate_monthly_metrics(df)` (`etl/monthly_metrics.py` lines 7–70)
with the caller's frame threaded explicitly.  An empty frame returns early
with no mutation; otherwise the source assigns `df['Month'] = ...` — adding a
`Month` column to the caller's frame — before grouping. -/
def calculate_monthly_metrics (df : PFrame) : PFrame × MonthlyMetricsResult :=
  if df.rows.isEmpty then (df, ⟨[], [], [], [], []⟩)
  else
    let df1 : PFrame := { df with monthCol := some (df.rows.map (fun r => r.ts.month)) }
    let series := monthlySeries df1.rows
    let vals := series.map (·.2)
    (df1,
     { months := series.map (·.1)
       portfolio_value := vals
       peak_value := runningMax vals
       drawdown := drawdownCol vals
       max_drawdown := expandingMinOpt (drawdownCol vals) })

/-- Model of `get_monthly_aggregation` with the caller's frame threaded explicitly:
the source works on `df.copy()` (`data_processing.py` line 69), so the
caller's frame comes back untouched. -/
def get_monthly_aggregation_state (df : PFrame) : PFrame × List (Month × ℚ) :=
  (df,
   ((df.rows.map (fun r => r.ts.month)).dedup).map
     (fun mo => (mo, ((df.rows.filter (fun r => decide (r.ts.month = mo))).map (·.value)).sum)))

/-- Model of `Series.min()` on a rational column. -/
def minQ? : List ℚ → Option ℚ
  | [] => none
  | x :: xs =>
    match minQ? xs with
    | none => some x
    | some y => some (min x y)

/-- Cumulative products `acc * Π (1 + rᵢ)` (`(1 + returns).cumprod()`). -/
def cumProdAux (acc : ℚ) : List ℚ → List ℚ
  | [] => []
  | r :: rs => acc * (1 + r) :: cumProdAux (acc * (1 + r)) rs

/-- Model of `(1 + returns).cumprod()`. -/
def cumProd (returns : List ℚ) : List ℚ := cumProdAux 1 returns

/-- Model of `calculate_max_drawdown(returns)` (`etl/risk_metrics.py` lines 160–182):
drawdown of the cumulative-value series, then `Series.min()` (NaN skipped;
empty input returns NaN, modelled `none`). -/
def calculate_max_drawdown (returns : List ℚ) : Option ℚ :=
  if returns.isEmpty then none
  else minQ? ((drawdownCol (cumProd returns)).filterMap id)

/-! ## Order lemmas on months and dates -/

theorem Month.ltP_irrefl (a : Month) : ¬ Month.ltP a a := by
  unfold Month.ltP; omega

theorem Date.leP_refl (a : Date) : Date.leP a a := by
  unfold Date.leP; omega

theorem Date.leP_trans {a b c : Date} (h1 : Date.leP a b) (h2 : Date.leP b c) :
    Date.leP a c := by
  unfold Date.leP at h1 h2 ⊢; omega

theorem Date.leP_total (a b : Date) : Date.leP a b ∨ Date.leP b a := by
  unfold Date.leP; omega

/-! ## Lemmas on `maxMonth?` and `minMonth?` -/

theorem maxMonth?_eq_none {l : List Month} : maxMonth? l = none ↔ l = [] := by
  cases l <;> simp [maxMonth?]

theorem maxMonthA_mem : ∀ (l : List Month) (c : Month),
    maxMonthA c l = c ∨ maxMonthA c l ∈ l := by
  intro l
  induction l with
  | nil => intro c; left; rfl
  | cons m t ih =>
    intro c
    simp only [maxMonthA]
    rcases ih (if Month.ltP c m then m else c) with h | h
    · rw [h]
      split
      · right; exact List.mem_cons_self m t
      · left; rfl
    · right; exact List.mem_cons_of_mem _ h

theorem maxMonthA_not_lt : ∀ (l : List Month) (c y : Month), (y = c ∨ y ∈ l) →
    ¬ Month.ltP (maxMonthA c l) y := by
  intro l
  induction l with
  | nil =>
    intro c y hy
    simp at hy
    rw [hy]
    exact Month.ltP_irrefl c
  | cons m t ih =>
    intro c y hy
    simp only [maxMonthA]
    by_cases hc : Month.ltP c m
    · simp only [hc, if_true]
      rcases hy with h1 | hy
      · rw [h1]
        have hm := ih m m (Or.inl rfl)
        intro hlt
        unfold Month.ltP at hm hc hlt
        omega
      · rcases List.mem_cons.mp hy with h2 | hyt
        · rw [h2]
          exact ih m m (Or.inl rfl)
        · exact ih m y (Or.inr hyt)
    · simp only [hc, if_false]
      rcases hy with h1 | hy
      · rw [h1]
        exact ih c c (Or.inl rfl)
      · rcases List.mem_cons.mp hy with h2 | hyt
        · rw [h2]
          have hcc := ih c c (Or.inl rfl)
          intro hlt
          unfold Month.ltP at hcc hc hlt
          omega
        · exact ih c y (Or.inr hyt)

theorem maxMonth?_mem {l : List Month} {x : Month} (h : maxMonth? l = some x) :
    x ∈ l := by
  cases l with
  | nil => simp [maxMonth?] at h
  | cons m t =>
    simp only [maxMonth?, Option.some.injEq] at h
    rcases maxMonthA_mem t m with hm | hm
    · rw [h] at hm; rw [hm]; exact List.mem_cons_self m t
    · rw [h] at hm; exact List.mem_cons_of_mem _ hm

theorem maxMonth?_ge {l : List Month} {x : Month} (h : maxMonth? l = some x) :
    ∀ y ∈ l, ¬ Month.ltP x y := by
  cases l with
  | nil => simp [maxMonth?] at h
  | cons m t =>
    simp only [maxMonth?, Option.some.injEq] at h
    intro y hy
    rw [← h]
    rcases List.mem_cons.mp hy with rfl | hyt
    · exact maxMonthA_not_lt t y y (Or.inl rfl)
    · exact maxMonthA_not_lt t m y (Or.inr hyt)

theorem minMonth?_eq_none {l : List Month} : minMonth? l = none ↔ l = [] := by
  cases l <;> simp [minMonth?]

theorem minMonthA_mem : ∀ (l : List Month) (c : Month),
    minMonthA c l = c ∨ minMonthA c l ∈ l := by
  intro l
  induction l with
  | nil => intro c; left; rfl
  | cons m t ih =>
    intro c
    simp only [minMonthA]
    rcases ih (if Month.ltP m c then m else c) with h | h
    · rw [h]
      split
      · right; exact List.mem_cons_self m t
      · left; rfl
    · right; exact List.mem_cons_of_mem _ h

theorem minMonthA_not_gt : ∀ (l : List Month) (c y : Month), (y = c ∨ y ∈ l) →
    ¬ Month.ltP y (minMonthA c l) := by
  intro l
  induction l with
  | nil =>
    intro c y hy
    simp at hy
    rw [hy]
    exact Month.ltP_irrefl c
  | cons m t ih =>
    intro c y hy
    simp only [minMonthA]
    by_cases hc : Month.ltP m c
    · simp only [hc, if_true]
      rcases hy with h1 | hy
      · rw [h1]
        have hm := ih m m (Or.inl rfl)
        intro hlt
        unfold Month.ltP at hm hc hlt
        omega
      · rcases List.mem_cons.mp hy with h2 | hyt
        · rw [h2]
          exact ih m m (Or.inl rfl)
        · exact ih m y (Or.inr hyt)
    · simp only [hc, if_false]
      rcases hy with h1 | hy
      · rw [h1]
        exact ih c c (Or.inl rfl)
      · rcases List.mem_cons.mp hy with h2 | hyt
        · rw [h2]
          have hcc := ih c c (Or.inl rfl)
          intro hlt
          unfold Month.ltP at hcc hc hlt
          omega
        · exact ih c y (Or.inr hyt)

theorem minMonth?_mem {l : List Month} {x : Month} (h : minMonth? l = some x) :
    x ∈ l := by
  cases l with
  | nil => simp [minMonth?] at h
  | cons m t =>
    simp only [minMonth?, Option.some.injEq] at h
    rcases minMonthA_mem t m with hm | hm
    · rw [h] at hm; rw [hm]; exact List.mem_cons_self m t
    · rw [h] at hm; exact List.mem_cons_of_mem _ hm

theorem minMonth?_le {l : List Month} {x : Month} (h : minMonth? l = some x) :
    ∀ y ∈ l, ¬ Month.ltP y x := by
  cases l with
  | nil => simp [minMonth?] at h
  | cons m t =>
    simp only [minMonth?, Option.some.injEq] at h
    intro y hy
    rw [← h]
    rcases List.mem_cons.mp hy with rfl | hyt
    · exact minMonthA_not_gt t y y (Or.inl rfl)
    · exact minMonthA_not_gt t m y (Or.inr hyt)

/-! ## Lemmas on the loader dedup step -/

theorem insertByTs_perm (x : CRow) (l : List CRow) :
    List.Perm (insertByTs x l) (x :: l) := by
  induction l with
  | nil => exact List.Perm.refl _
  | cons y ys ih =>
    simp only [insertByTs]
    split
    · exact List.Perm.refl _
    · exact (List.Perm.cons y ih).trans (List.Perm.swap x y ys)

theorem sortByTimestamp_perm (l : List CRow) : List.Perm (sortByTimestamp l) l := by
  induction l with
  | nil => exact List.Perm.refl _
  | cons x xs ih =>
    simp only [sortByTimestamp]
    exact (insertByTs_perm x (sortByTimestamp xs)).trans (List.Perm.cons x ih)

theorem mem_insertByTs {a x : CRow} {l : List CRow} :
    a ∈ insertByTs x l ↔ a = x ∨ a ∈ l := by
  rw [(insertByTs_perm x l).mem_iff, List.mem_cons]

theorem insertByTs_pairwise {x : CRow} {l : List CRow}
    (h : l.Pairwise (fun a b => Date.leP a.ts b.ts)) :
    (insertByTs x l).Pairwise (fun a b => Date.leP a.ts b.ts) := by
  induction l with
  | nil => simp [insertByTs]
  | cons y ys ih =>
    simp only [insertByTs]
    cases h with
    | cons hy htail =>
      split
      · rename_i hxy
        refine List.Pairwise.cons ?_ (List.Pairwise.cons hy htail)
        intro b hb
        rcases List.mem_cons.mp hb with h1 | h2
        · rw [h1]; exact hxy
        · exact Date.leP_trans hxy (hy b h2)
      · rename_i hxy
        have hyx : Date.leP y.ts x.ts := (Date.leP_total x.ts y.ts).resolve_left hxy
        refine List.Pairwise.cons ?_ (ih htail)
        intro b hb
        rcases mem_insertByTs.mp hb with h1 | h2
        · rw [h1]; exact hyx
        · exact hy b h2

theorem sortByTimestamp_pairwise (l : List CRow) :
    (sortByTimestamp l).Pairwise (fun a b => Date.leP a.ts b.ts) := by
  induction l with
  | nil => simp [sortByTimestamp]
  | cons x xs ih =>
    simp only [sortByTimestamp]
    exact insertByTs_pairwise ih

theorem pairwise_rel_getLast {α : Type} {R : α → α → Prop} (hrefl : ∀ a : α, R a a) :
    ∀ {l : List α} {w : α}, l.Pairwise R → l.getLast? = some w → ∀ x ∈ l, R x w := by
  intro l
  induction l with
  | nil => intro w _ h; simp at h
  | cons a t ih =>
    intro w hp hl x hx
    cases t with
    | nil =>
      simp at hl hx
      rw [hx, ← hl]
      exact hrefl a
    | cons b t' =>
      rw [List.getLast?_cons_cons] at hl
      cases hp with
      | cons ha hp' =>
        rcases List.mem_cons.mp hx with h1 | h2
        · rw [h1]
          exact ha w (List.mem_of_getLast?_eq_some hl)
        · exact ih hp' hl x h2

theorem filterMap_filter_keyed {α κ : Type} [DecidableEq κ] (key : α → κ)
    (f : κ → Option α) (hf : ∀ k r, f k = some r → key r = k) :
    ∀ (ks : List κ), ks.Nodup → ∀ k : κ,
      (ks.filterMap f).filter (fun r => decide (key r = k)) =
        if k ∈ ks then (f k).toList else [] := by
  intro ks
  induction ks with
  | nil => intro _ k; simp
  | cons k' ks' ih =>
    intro hnd k
    have hnd' : ks'.Nodup := (List.nodup_cons.mp hnd).2
    have hk'n : k' ∉ ks' := (List.nodup_cons.mp hnd).1
    rw [List.filterMap_cons]
    cases hfk' : f k' with
    | none =>
      rw [ih hnd' k]
      by_cases hk : k = k'
      · subst hk
        simp [hk'n, hfk']
      · simp [hk]
    | some r =>
      have hkr : key r = k' := hf k' r hfk'
      rw [List.filter_cons]
      by_cases hk : k = k'
      · subst hk
        rw [ih hnd' k]
        simp [hkr, hk'n, hfk']
      · have hd : (decide (key r = k)) = false := by
          simp [hkr]
          exact fun h => hk h.symm
        rw [hd]
        simp only [Bool.false_eq_true, if_false]
        rw [ih hnd' k]
        simp [hk]

theorem groupLast_filter {κ : Type} [DecidableEq κ] (key : CRow → κ) (s : List CRow)
    (k : κ) :
    (groupLast key s).filter (fun r => decide (key r = k)) =
      ((s.filter (fun r => decide (key r = k))).getLast?).toList := by
  have hf : ∀ k' r, ((s.filter (fun x => decide (key x = k'))).getLast? = some r) →
      key r = k' := by
    intro k' r h
    have hm := List.mem_of_getLast?_eq_some h
    have h2 := List.mem_filter.mp hm
    simpa using h2.2
  unfold groupLast
  rw [filterMap_filter_keyed key _ hf _ (List.nodup_dedup _) k]
  by_cases hk : k ∈ (s.map key).dedup
  · simp [hk]
  · rw [if_neg hk]
    have h0 : s.filter (fun r => decide (key r = k)) = [] := by
      rw [List.filter_eq_nil_iff]
      intro r hr hkey
      apply hk
      rw [List.mem_dedup]
      exact List.mem_map.mpr ⟨r, hr, by simpa using hkey⟩
    rw [h0]
    simp

theorem load_dedup_spec {κ : Type} [DecidableEq κ] (key : CRow → κ) (l : List CRow)
    (k : κ) (hne : l.filter (fun r => decide (key r = k)) ≠ []) :
    ∃ w, (load_data_dedup_by key l).filter (fun r => decide (key r = k)) = [w]
      ∧ w ∈ l.filter (fun r => decide (key r = k))
      ∧ ∀ r ∈ l.filter (fun r => decide (key r = k)), Date.leP r.ts w.ts := by
  unfold load_data_dedup_by
  by_cases hdup : hasDupBy key l = true
  · rw [if_pos hdup]
    have hperm : List.Perm ((sortByTimestamp l).filter (fun r => decide (key r = k)))
        (l.filter (fun r => decide (key r = k))) :=
      (sortByTimestamp_perm l).filter _
    have hsne : (sortByTimestamp l).filter (fun r => decide (key r = k)) ≠ [] := by
      intro h0
      have hlen := hperm.length_eq
      rw [h0] at hlen
      exact hne (List.length_eq_zero.mp hlen.symm)
    obtain ⟨w, hw⟩ : ∃ w,
        ((sortByTimestamp l).filter (fun r => decide (key r = k))).getLast? = some w := by
      cases hgl : ((sortByTimestamp l).filter (fun r => decide (key r = k))).getLast? with
      | none => exact absurd (List.getLast?_eq_none_iff.mp hgl) hsne
      | some w => exact ⟨w, rfl⟩
    refine ⟨w, ?_, ?_, ?_⟩
    · rw [groupLast_filter key _ k, hw]
      rfl
    · exact hperm.mem_iff.mp (List.mem_of_getLast?_eq_some hw)
    · intro r hr
      have hrs : r ∈ (sortByTimestamp l).filter (fun r => decide (key r = k)) :=
        hperm.mem_iff.mpr hr
      have hpw : ((sortByTimestamp l).filter (fun r => decide (key r = k))).Pairwise
          (fun a b => Date.leP a.ts b.ts) :=
        List.Pairwise.sublist (List.filter_sublist _) (sortByTimestamp_pairwise l)
      exact pairwise_rel_getLast (fun a : CRow => Date.leP_refl a.ts) hpw hw r hrs
  · rw [if_neg hdup]
    have hle : ∀ r ∈ l, ¬ 1 < (l.filter (fun x => decide (key x = key r))).length := by
      intro r hr hgt
      apply hdup
      unfold hasDupBy
      rw [List.any_eq_true]
      exact ⟨r, hr, by simpa using hgt⟩
    obtain ⟨w, hw⟩ : ∃ w, w ∈ l.filter (fun r => decide (key r = k)) := by
      cases hgl : l.filter (fun r => decide (key r = k)) with
      | nil => exact absurd hgl hne
      | cons a t => exact ⟨a, hgl.symm ▸ List.mem_cons_self a t⟩
    have hkw : key w = k := by simpa using (List.mem_filter.mp hw).2
    have hwl : w ∈ l := (List.mem_filter.mp hw).1
    have h1 := hle w hwl
    rw [hkw] at h1
    have hsub : l.filter (fun r => decide (key r = k)) = [w] := by
      cases hgl : l.filter (fun r => decide (key r = k)) with
      | nil => rw [hgl] at hw; simp at hw
      | cons a t =>
        cases t with
        | nil =>
          rw [hgl] at hw
          simp at hw
          rw [hw]
        | cons b t' =>
          rw [hgl] at h1
          simp at h1
    refine ⟨w, hsub, hw, ?_⟩
    intro r hr
    rw [hsub] at hr
    simp at hr
    rw [hr]
    exact Date.leP_refl _

/-! ## Partition lemmas for aggregation conservation -/

theorem sum_map_filter_add {α : Type} (p : α → Bool) (v : α → ℚ) :
    ∀ l : List α,
      ((l.filter p).map v).sum + ((l.filter (fun a => !(p a))).map v).sum
        = (l.map v).sum := by
  intro l
  induction l with
  | nil => simp
  | cons a t ih =>
    by_cases hp : p a
    · simp only [List.filter_cons, hp, Bool.not_true, Bool.false_eq_true, if_false,
        if_true, List.map_cons, List.sum_cons]
      rw [← ih]
      ring
    · simp only [List.filter_cons, hp, Bool.not_false, Bool.false_eq_true, if_false,
        if_true, List.map_cons, List.sum_cons]
      rw [← ih]
      ring

theorem sum_over_keys {α κ : Type} [DecidableEq κ] (key : α → κ) (v : α → ℚ) :
    ∀ (ks : List κ), ks.Nodup → ∀ (rows : List α), (∀ r ∈ rows, key r ∈ ks) →
      (ks.map (fun k => ((rows.filter (fun r => decide (key r = k))).map v).sum)).sum
        = (rows.map v).sum := by
  intro ks
  induction ks with
  | nil =>
    intro _ rows hcov
    cases rows with
    | nil => simp
    | cons r t => exact absurd (hcov r (List.mem_cons_self r t)) (by simp)
  | cons k ks' ih =>
    intro hnd rows hcov
    have hnd' := (List.nodup_cons.mp hnd).2
    have hkn := (List.nodup_cons.mp hnd).1
    rw [List.map_cons, List.sum_cons]
    have hcov' : ∀ r ∈ rows.filter (fun r => !(decide (key r = k))), key r ∈ ks' := by
      intro r hr
      have h2 := List.mem_filter.mp hr
      have h3 := hcov r h2.1
      rcases List.mem_cons.mp h3 with h | h
      · exfalso
        have h4 := h2.2
        simp at h4
        exact h4 h
      · exact h
    have hrec := ih hnd' (rows.filter (fun r => !(decide (key r = k)))) hcov'
    have hagree : ∀ j ∈ ks',
        (rows.filter (fun r => !(decide (key r = k)))).filter
            (fun r => decide (key r = j))
          = rows.filter (fun r => decide (key r = j)) := by
      intro j hj
      rw [List.filter_filter]
      apply List.filter_congr
      intro r _
      by_cases h : key r = j
      · have hne : ¬ key r = k := by
          rw [h]
          intro hh
          exact hkn (hh ▸ hj)
        have hjk : ¬ j = k := fun he => hne (h.trans he)
        simp [h, hne, hjk]
      · simp [h]
    have hmapeq :
        ks'.map (fun j => ((rows.filter (fun r => decide (key r = j))).map v).sum)
          = ks'.map (fun j =>
              (((rows.filter (fun r => !(decide (key r = k)))).filter
                  (fun r => decide (key r = j))).map v).sum) := by
      apply List.map_congr_left
      intro j hj
      rw [hagree j hj]
    rw [hmapeq, hrec]
    exact sum_map_filter_add (fun r => decide (key r = k)) v rows

theorem map_filter_comm {α β : Type} (f : α → β) (p : β → Bool) :
    ∀ l : List α, (l.map f).filter p = (l.filter (fun a => p (f a))).map f := by
  intro l
  induction l with
  | nil => simp
  | cons a t ih =>
    by_cases h : p (f a) <;> simp [List.filter_cons, h, ih]

theorem nodup_filter_eq_mem {κ : Type} [DecidableEq κ] :
    ∀ (l : List κ), l.Nodup → ∀ m : κ,
      l.filter (fun a => decide (a = m)) = if m ∈ l then [m] else [] := by
  intro l
  induction l with
  | nil => intro _ m; simp
  | cons a t ih =>
    intro hnd m
    have hnd' := (List.nodup_cons.mp hnd).2
    have han := (List.nodup_cons.mp hnd).1
    by_cases ham : a = m
    · subst ham
      have hat : a ∉ t := han
      rw [List.filter_cons]
      simp only [decide_True, if_true]
      rw [ih hnd' a]
      simp [hat]
    · rw [List.filter_cons]
      simp only [ham, decide_False, Bool.false_eq_true, if_false]
      rw [ih hnd' m]
      have hma : ¬ m = a := fun he => ham he.symm
      by_cases hmt : m ∈ t
      · simp [hmt, List.mem_cons]
      · simp [hmt, hma, List.mem_cons]

/-! ## Lemmas on running maxima, drawdowns and expanding minima -/

theorem runningMaxAux_length : ∀ (l : List ℚ) (c : ℚ),
    (runningMaxAux c l).length = l.length := by
  intro l
  induction l with
  | nil => intro c; rfl
  | cons x xs ih => intro c; simp [runningMaxAux, ih]

theorem runningMax_length (l : List ℚ) : (runningMax l).length = l.length := by
  cases l with
  | nil => rfl
  | cons x xs => simp [runningMax, runningMaxAux_length]

theorem drawdownCol_length (l : List ℚ) : (drawdownCol l).length = l.length := by
  unfold drawdownCol
  rw [List.length_zipWith, runningMax_length]
  exact Nat.min_self _

theorem zip_runningMaxAux_le : ∀ (l : List ℚ) (c : ℚ),
    ∀ pr ∈ List.zip l (runningMaxAux c l), pr.1 ≤ pr.2 ∧ c ≤ pr.2 := by
  intro l
  induction l with
  | nil => intro c pr h; simp at h
  | cons x xs ih =>
    intro c pr hpr
    simp only [runningMaxAux, List.zip_cons_cons] at hpr
    rcases List.mem_cons.mp hpr with h1 | h2
    · rw [h1]
      exact ⟨le_max_right c x, le_max_left c x⟩
    · have h := ih (max c x) pr h2
      exact ⟨h.1, le_trans (le_max_left c x) h.2⟩

theorem zip_runningMax_le (l : List ℚ) :
    ∀ pr ∈ List.zip l (runningMax l), pr.1 ≤ pr.2 := by
  cases l with
  | nil => intro pr h; simp at h
  | cons x xs =>
    intro pr hpr
    simp only [runningMax, List.zip_cons_cons] at hpr
    rcases List.mem_cons.mp hpr with h1 | h2
    · rw [h1]
    · exact (zip_runningMaxAux_le xs x pr h2).1

theorem zip_zipWith_rel {α β γ : Type} (f : α → β → γ) :
    ∀ (l₁ : List α) (l₂ : List β),
      ∀ x ∈ List.zip (List.zip l₁ l₂) (List.zipWith f l₁ l₂), x.2 = f x.1.1 x.1.2 := by
  intro l₁
  induction l₁ with
  | nil => intro l₂ x h; simp at h
  | cons a t ih =>
    intro l₂ x hx
    cases l₂ with
    | nil => simp at hx
    | cons b t' =>
      simp only [List.zip_cons_cons, List.zipWith_cons_cons] at hx
      rcases List.mem_cons.mp hx with h1 | h2
      · rw [h1]
      · exact ih t' x h2

theorem zipWith_getElem? {α β γ : Type} (f : α → β → γ) :
    ∀ (l₁ : List α) (l₂ : List β) (i : Nat),
      (List.zipWith f l₁ l₂)[i]? = (l₁[i]?).bind (fun a => (l₂[i]?).map (f a)) := by
  intro l₁
  induction l₁ with
  | nil => intro l₂ i; simp
  | cons a t ih =>
    intro l₂ i
    cases l₂ with
    | nil => simp
    | cons b t' =>
      cases i with
      | zero => simp
      | succ n => simpa using ih t' n

theorem expandingMinAux_getLast_spec : ∀ (l : List ℚ) (c : ℚ), l ≠ [] →
    ∃ v, (expandingMinAux c l).getLast? = some v ∧ (v = c ∨ v ∈ l) ∧ v ≤ c ∧
      ∀ x ∈ l, v ≤ x := by
  intro l
  induction l with
  | nil => intro c h; exact absurd rfl h
  | cons x xs ih =>
    intro c _
    by_cases hxs : xs = []
    · subst hxs
      refine ⟨min c x, by simp [expandingMinAux], ?_, min_le_left c x, ?_⟩
      · rcases min_choice c x with h | h
        · exact Or.inl h
        · right
          rw [h]
          exact List.mem_cons_self x []
      · intro y hy
        simp at hy
        rw [hy]
        exact min_le_right c x
    · obtain ⟨v, hv1, hv2, hv3, hv4⟩ := ih (min c x) hxs
      refine ⟨v, ?_, ?_, le_trans hv3 (min_le_left c x), ?_⟩
      · show (min c x :: expandingMinAux (min c x) xs).getLast? = some v
        cases hE : expandingMinAux (min c x) xs with
        | nil =>
          exfalso
          cases xs with
          | nil => exact hxs rfl
          | cons z zs => simp [expandingMinAux] at hE
        | cons e es =>
          rw [List.getLast?_cons_cons]
          rw [hE] at hv1
          exact hv1
      · rcases hv2 with h | h
        · rcases min_choice c x with hm | hm
          · exact Or.inl (h.trans hm)
          · exact Or.inr ((h.trans hm) ▸ List.mem_cons_self x xs)
        · exact Or.inr (List.mem_cons_of_mem _ h)
      · intro y hy
        rcases List.mem_cons.mp hy with h | h
        · rw [h]
          exact le_trans hv3 (min_le_right c x)
        · exact hv4 y h

theorem expandingMin_getLast_spec (l : List ℚ) (h : l ≠ []) :
    ∃ v, (expandingMin l).getLast? = some v ∧ v ∈ l ∧ ∀ x ∈ l, v ≤ x := by
  cases l with
  | nil => exact absurd rfl h
  | cons x xs =>
    by_cases hxs : xs = []
    · subst hxs
      refine ⟨x, by simp [expandingMin, expandingMinAux], by simp, ?_⟩
      intro y hy
      simp at hy
      rw [hy]
    · obtain ⟨v, h1, h2, h3, h4⟩ := expandingMinAux_getLast_spec xs x hxs
      refine ⟨v, ?_, ?_, ?_⟩
      · show (x :: expandingMinAux x xs).getLast? = some v
        cases hE : expandingMinAux x xs with
        | nil =>
          exfalso
          cases xs with
          | nil => exact hxs rfl
          | cons z zs => simp [expandingMinAux] at hE
        | cons e es =>
          rw [List.getLast?_cons_cons]
          rw [hE] at h1
          exact h1
      · rcases h2 with h | h
        · exact h ▸ List.mem_cons_self x xs
        · exact List.mem_cons_of_mem _ h
      · intro y hy
        rcases List.mem_cons.mp hy with hh | hh
        · rw [hh]
          exact h3
        · exact h4 y hh

theorem all_some_eq_map {α : Type} : ∀ (l : List (Option α)),
    (∀ x ∈ l, ∃ y, x = some y) → ∃ q : List α, l = q.map some := by
  intro l
  induction l with
  | nil => intro _; exact ⟨[], rfl⟩
  | cons a t ih =>
    intro h
    obtain ⟨y, hy⟩ := h a (List.mem_cons_self a t)
    obtain ⟨q, hq⟩ := ih (fun x hx => h x (List.mem_cons_of_mem _ hx))
    exact ⟨y :: q, by rw [hy, hq]; rfl⟩

theorem expandingMinOptAux_map_some : ∀ (q : List ℚ) (c : ℚ),
    expandingMinOptAux (some c) (q.map some) = (expandingMinAux c q).map some := by
  intro q
  induction q with
  | nil => intro c; rfl
  | cons x xs ih =>
    intro c
    simp only [List.map_cons, expandingMinOptAux, expandingMinAux]
    rw [ih]

theorem expandingMinOpt_map_some (q : List ℚ) :
    expandingMinOpt (q.map some) = (expandingMin q).map some := by
  cases q with
  | nil => rfl
  | cons x xs =>
    simp only [List.map_cons, expandingMinOpt, expandingMinOptAux, expandingMin]
    rw [expandingMinOptAux_map_some]

/-! ## Membership lemmas for the classifier -/

theorem foldl_overwrite_mem {β : Type} (sel : β → String) (c : β → Prop)
    [DecidablePred c] :
    ∀ (l : List β) (init : String),
      l.foldl (fun acc x => if c x then sel x else acc) init ∈ init :: l.map sel := by
  intro l
  induction l with
  | nil => intro init; simp
  | cons x xs ih =>
    intro init
    simp only [List.foldl_cons, List.map_cons]
    by_cases hc : c x
    · simp only [hc, if_true]
      exact List.mem_cons_of_mem init (ih (sel x))
    · simp only [hc, if_false]
      rcases List.mem_cons.mp (ih init) with h | h
      · rw [h]
        exact List.mem_cons_self _ _
      · exact List.mem_cons_of_mem _ (List.mem_cons_of_mem _ h)

theorem assetStage_mem (a : String) :
    assetStage a ∈ (["Other", "Cash", "Pensions", "Investments"] : List String) := by
  have h := foldl_overwrite_mem (fun r : String × RuleSet => r.1)
    (fun r : String × RuleSet => matchesRuleSet a r.2 = true)
    get_asset_classification_rules "Other"
  simpa [assetStage, get_asset_classification_rules] using h

theorem platformStage_mem (p t : String) :
    platformStage p t ∈ ([t, "Cash", "Pensions", "Investments"] : List String) := by
  have h := foldl_overwrite_mem (fun r : String × RuleSet => r.1)
    (fun r : String × RuleSet => p ∈ r.2.platforms)
    get_asset_classification_rules t
  simpa [platformStage, get_asset_classification_rules] using h

theorem applySpecialHandling_mem (a t : String) :
    applySpecialHandling a t ∈ ([t, "Investments", "Cash"] : List String) := by
  unfold applySpecialHandling
  split_ifs <;> simp

theorem classifyRow_mem (p a : String) :
    classifyRow p a ∈ (["Cash", "Investments", "Pensions", "Other"] : List String) := by
  unfold classifyRow
  by_cases h0 : assetStage a = "Other"
  · simp only [h0, if_true]
    have h2 := platformStage_mem p "Other"
    have h3 := applySpecialHandling_mem a (platformStage p "Other")
    simp only [List.mem_cons, List.mem_singleton] at h2 h3 ⊢
    rcases h3 with h | h | h <;> rcases h2 with g | g | g | g <;> simp_all
  · simp only [h0, if_false]
    have h1 := assetStage_mem a
    have h3 := applySpecialHandling_mem a (assetStage a)
    simp only [List.mem_cons, List.mem_singleton] at h1 h3 ⊢
    rcases h3 with h | h | h <;> rcases h1 with g | g | g | g <;> simp_all

/-! ## Claim theorems -/

/-- C10: for a `None` or empty input table, `classify_asset_types` returns the
input unchanged without adding an `Asset_Type` column, so callers of the
classifier on empty data receive a table lacking that column entirely. -/
theorem c10_empty_input_passthrough :
    classify_asset_types none = none
    ∧ classify_asset_types (some []) = some (Frame.raw [])
    ∧ (Frame.raw []).hasAssetTypeCol = false :=
  ⟨rfl, rfl, rfl⟩

/-- C2 (counterexample): the claim says that when a row's `Platform` is in the
platform table, the platform-derived type wins over any `Asset`-name match.
For `Platform = "HSBC"` (platform table: `Cash`) and `Asset = "Bitcoin"`
(asset-name rules: `Investments`), `classify_asset_types` assigns
`Investments`, not `Cash`. -/
theorem c2_counterexample :
    classifyRow "HSBC" "Bitcoin" = "Investments"
    ∧ platformStage "HSBC" "Other" = "Cash"
    ∧ ("Investments" : String) ≠ "Cash" :=
  ⟨by decide, by decide, by decide⟩

/-- C2 (amended): the classifier's primary stage matches on the `Asset` name;
the `Platform` table applies only to rows the asset-name stage leaves at
`"Other"`.  Concretely: when the asset-name stage resolves a row, the
`Platform` value is ignored entirely (any two platforms classify alike), and
when it does not and no special-handling override fires, the row gets the
platform-stage result. -/
theorem c2_amended_asset_name_primary (p₁ p₂ a : String) :
    (assetStage a ≠ "Other" → classifyRow p₁ a = classifyRow p₂ a)
    ∧ (assetStage a = "Other" →
       crypto_patterns.any (fun ph => containsWordCI a ph) = false →
       stock_patterns.any (fun ph => containsWordCI a ph) = false →
       currency_patterns.any (fun ph => containsWordCI a ph) = false →
       classifyRow p₁ a = platformStage p₁ "Other") := by
  constructor
  · intro h
    simp [classifyRow, h]
  · intro h h1 h2 h3
    simp [classifyRow, applySpecialHandling, h, h1, h2, h3]

/-- Witness for C2 (amended) at concrete rows. -/
theorem c2_amended_asset_name_primary_witness :
    classifyRow "HSBC" "Bitcoin" = classifyRow "Wahed" "Bitcoin"
    ∧ classifyRow "Wahed" "Mystery Holding" = platformStage "Wahed" "Other" := by
  constructor
  · exact (c2_amended_asset_name_primary "HSBC" "Wahed" "Bitcoin").1 (by decide)
  · exact (c2_amended_asset_name_primary "Wahed" "HSBC" "Mystery Holding").2
      (by decide) (by decide) (by decide) (by decide)

/-- C7: on a non-empty ledger, classification assigns each row exactly one
`Asset_Type` drawn from the closed set
`{Cash, Investments, Pensions, Property, Vehicles, Other}` — never null,
never absent.  Determinism holds because `classify_asset_types` is a pure
function of its input. -/
theorem c7_classification_totality (rows : List RawRow) (h : rows ≠ []) :
    classify_asset_types (some rows) = some (Frame.classified (rows.map classifyRawRow))
    ∧ ∀ cr ∈ rows.map classifyRawRow,
        cr.asset_type ∈
          (["Cash", "Investments", "Pensions", "Property", "Vehicles", "Other"] :
            List String) := by
  constructor
  · cases rows with
    | nil => exact absurd rfl h
    | cons r t => rfl
  · intro cr hcr
    obtain ⟨r, hr, hcr'⟩ := List.mem_map.mp hcr
    rw [← hcr']
    have hmem := classifyRow_mem r.platform r.asset
    simp only [classifyRawRow]
    simp only [List.mem_cons, List.mem_singleton] at hmem ⊢
    tauto

/-- Witness for C7 at a concrete one-row ledger. -/
theorem c7_classification_totality_witness :
    classify_asset_types (some [⟨"HSBC", "Savings Account", 100, ⟨2024, 1, 1⟩⟩])
      = some (Frame.classified
          ([(⟨"HSBC", "Savings Account", 100, ⟨2024, 1, 1⟩⟩ : RawRow)].map classifyRawRow))
    ∧ ∀ cr ∈ [(⟨"HSBC", "Savings Account", 100, ⟨2024, 1, 1⟩⟩ : RawRow)].map classifyRawRow,
        cr.asset_type ∈
          (["Cash", "Investments", "Pensions", "Property", "Vehicles", "Other"] :
            List String) :=
  c7_classification_totality [⟨"HSBC", "Savings Account", 100, ⟨2024, 1, 1⟩⟩] (by decide)

/-- C9 (counterexample): the claim says no metrics function mutates its input.
`calculate_monthly_metrics` assigns `df['Month'] = ...` without copying, so
the caller's frame comes back changed (a `Month` column appears). -/
theorem c9_counterexample :
    (calculate_monthly_metrics ⟨[⟨⟨2024, 1, 5⟩, 10⟩], none⟩).1 ≠
      (⟨[⟨⟨2024, 1, 5⟩, 10⟩], none⟩ : PFrame) := by
  intro h
  have h2 := congrArg PFrame.monthCol h
  simp [calculate_monthly_metrics] at h2

/-- C9 (amended): `get_monthly_aggregation` copies its input and never mutates
it, but `calculate_monthly_metrics` mutates its (non-empty) input in place,
adding a `Month` column to the caller's frame. -/
theorem c9_amended_mutation (f : PFrame) (hmc : f.monthCol = none)
    (hne : f.rows ≠ []) :
    (get_monthly_aggregation_state f).1 = f
    ∧ (calculate_monthly_metrics f).1 ≠ f := by
  refine ⟨rfl, ?_⟩
  intro heq
  have hF : ¬ (f.rows.isEmpty = true) := by
    simp only [List.isEmpty_iff]
    exact hne
  unfold calculate_monthly_metrics at heq
  rw [if_neg hF] at heq
  have h2 := congrArg PFrame.monthCol heq
  simp only at h2
  rw [hmc] at h2
  simp at h2

/-- Witness for C9 (amended) at a concrete one-row frame. -/
theorem c9_amended_mutation_witness :
    (get_monthly_aggregation_state ⟨[⟨⟨2024, 1, 5⟩, 10⟩], none⟩).1
        = (⟨[⟨⟨2024, 1, 5⟩, 10⟩], none⟩ : PFrame)
    ∧ (calculate_monthly_metrics ⟨[⟨⟨2024, 1, 5⟩, 10⟩], none⟩).1 ≠
        (⟨[⟨⟨2024, 1, 5⟩, 10⟩], none⟩ : PFrame) :=
  c9_amended_mutation ⟨[⟨⟨2024, 1, 5⟩, 10⟩], none⟩ rfl (by simp)

/-- C1 (counterexample): the claim says that whenever two rows share
`(Platform, Asset, month)` with different `Timestamp`s, exactly one row for
that combination — the latest — survives the ETL loader.  The ETL loader
groups by `(Month, Asset)` only, so a third row with the same `Asset` under a
different `Platform` absorbs the whole group: zero rows survive for
`("A", "X", 2024-01)` although the ledger has two (the claim demands exactly
one, with `Value` 2). -/
theorem c1_counterexample :
    ((etl_load_data_dedup
        [⟨"A", "X", 1, ⟨2024, 1, 1⟩, "Cash"⟩,
         ⟨"A", "X", 2, ⟨2024, 1, 5⟩, "Cash"⟩,
         ⟨"B", "X", 3, ⟨2024, 1, 9⟩, "Cash"⟩]).filter
        (fun r => decide (fullKey r = (⟨2024, 1⟩, "A", "X")))).length = 0
    ∧ (0 : Nat) ≠ 1 :=
  ⟨by decide, by decide⟩

/-- C1 (amended): `load_data` in `src/utils/data_loader.py` keys the
last-write-wins dedup on `(Month, Platform, Asset)`: every non-empty
`(Platform, Asset, month)` group retains exactly one row, one carrying the
group's latest `Timestamp`.  The ETL loader keys it on `(Month, Asset)`
instead, so the same guarantee holds only per `(Asset, month)` group. -/
theorem c1_amended_last_write_wins (l : List CRow) :
    (∀ k : Month × String × String,
       l.filter (fun r => decide (fullKey r = k)) ≠ [] →
       ∃ w, (utils_load_data_dedup l).filter (fun r => decide (fullKey r = k)) = [w]
         ∧ w ∈ l.filter (fun r => decide (fullKey r = k))
         ∧ ∀ r ∈ l.filter (fun r => decide (fullKey r = k)), Date.leP r.ts w.ts)
    ∧ (∀ k : Month × String,
       l.filter (fun r => decide (etlKey r = k)) ≠ [] →
       ∃ w, (etl_load_data_dedup l).filter (fun r => decide (etlKey r = k)) = [w]
         ∧ w ∈ l.filter (fun r => decide (etlKey r = k))
         ∧ ∀ r ∈ l.filter (fun r => decide (etlKey r = k)), Date.leP r.ts w.ts) := by
  constructor
  · intro k hne
    exact load_dedup_spec fullKey l k hne
  · intro k hne
    exact load_dedup_spec etlKey l k hne

/-- Witness for C1 (amended) at a concrete three-row ledger. -/
theorem c1_amended_last_write_wins_witness :
    (∃ w, (utils_load_data_dedup
        [⟨"A", "X", 1, ⟨2024, 1, 1⟩, "Cash"⟩,
         ⟨"A", "X", 2, ⟨2024, 1, 5⟩, "Cash"⟩,
         ⟨"B", "X", 3, ⟨2024, 1, 9⟩, "Cash"⟩]).filter
          (fun r => decide (fullKey r = (⟨2024, 1⟩, "A", "X"))) = [w]
      ∧ w ∈ ([⟨"A", "X", 1, ⟨2024, 1, 1⟩, "Cash"⟩,
              ⟨"A", "X", 2, ⟨2024, 1, 5⟩, "Cash"⟩,
              ⟨"B", "X", 3, ⟨2024, 1, 9⟩, "Cash"⟩] : List CRow).filter
          (fun r => decide (fullKey r = (⟨2024, 1⟩, "A", "X")))
      ∧ ∀ r ∈ ([⟨"A", "X", 1, ⟨2024, 1, 1⟩, "Cash"⟩,
                ⟨"A", "X", 2, ⟨2024, 1, 5⟩, "Cash"⟩,
                ⟨"B", "X", 3, ⟨2024, 1, 9⟩, "Cash"⟩] : List CRow).filter
          (fun r => decide (fullKey r = (⟨2024, 1⟩, "A", "X"))), Date.leP r.ts w.ts)
    ∧ (∃ w, (etl_load_data_dedup
        [⟨"A", "X", 1, ⟨2024, 1, 1⟩, "Cash"⟩,
         ⟨"A", "X", 2, ⟨2024, 1, 5⟩, "Cash"⟩,
         ⟨"B", "X", 3, ⟨2024, 1, 9⟩, "Cash"⟩]).filter
          (fun r => decide (etlKey r = (⟨2024, 1⟩, "X"))) = [w]
      ∧ w ∈ ([⟨"A", "X", 1, ⟨2024, 1, 1⟩, "Cash"⟩,
              ⟨"A", "X", 2, ⟨2024, 1, 5⟩, "Cash"⟩,
              ⟨"B", "X", 3, ⟨2024, 1, 9⟩, "Cash"⟩] : List CRow).filter
          (fun r => decide (etlKey r = (⟨2024, 1⟩, "X")))
      ∧ ∀ r ∈ ([⟨"A", "X", 1, ⟨2024, 1, 1⟩, "Cash"⟩,
                ⟨"A", "X", 2, ⟨2024, 1, 5⟩, "Cash"⟩,
                ⟨"B", "X", 3, ⟨2024, 1, 9⟩, "Cash"⟩] : List CRow).filter
          (fun r => decide (etlKey r = (⟨2024, 1⟩, "X"))), Date.leP r.ts w.ts) :=
  ⟨(c1_amended_last_write_wins
      [⟨"A", "X", 1, ⟨2024, 1, 1⟩, "Cash"⟩,
       ⟨"A", "X", 2, ⟨2024, 1, 5⟩, "Cash"⟩,
       ⟨"B", "X", 3, ⟨2024, 1, 9⟩, "Cash"⟩]).1 (⟨2024, 1⟩, "A", "X") (by decide),
   (c1_amended_last_write_wins
      [⟨"A", "X", 1, ⟨2024, 1, 1⟩, "Cash"⟩,
       ⟨"A", "X", 2, ⟨2024, 1, 5⟩, "Cash"⟩,
       ⟨"B", "X", 3, ⟨2024, 1, 9⟩, "Cash"⟩]).2 (⟨2024, 1⟩, "X") (by decide)⟩

/-- C3 (counterexample): the claim says one-month inputs leave both `mom_change`
and `ytd_change` undefined, and that the guards fire exactly on non-zero
reference sums.  On a single positive month the code returns `ytd_change = 0`
(the YTD reference is the latest month itself), and a negative (non-zero)
previous-month sum yields `mom_change = None` because the guard is `> 0`. -/
theorem c3_counterexample :
    ((calculate_asset_type_metrics
        [⟨"HSBC", "Savings", 1000, ⟨2024, 5, 10⟩, "Cash"⟩] "Cash").mom_change = none
      ∧ (calculate_asset_type_metrics
        [⟨"HSBC", "Savings", 1000, ⟨2024, 5, 10⟩, "Cash"⟩] "Cash").ytd_change = some 0)
    ∧ (calculate_asset_type_metrics
        [⟨"HSBC", "Savings", -100, ⟨2024, 5, 10⟩, "Cash"⟩,
         ⟨"HSBC", "Savings", 50, ⟨2024, 6, 10⟩, "Cash"⟩] "Cash").mom_change = none := by
  refine ⟨⟨?_, ?_⟩, ?_⟩ <;>
    norm_num [calculate_asset_type_metrics, filter_by_asset_type, monthsOf, maxMonth?,
      maxMonthA, minMonth?, minMonthA, prevMonthOf, ytdStartOf, sumInMonth, Month.ltP,
      Date.month]

/-- C3 (amended): `mom_change` is defined exactly when a previous tracked month
exists and its summed value is strictly positive (not merely non-zero), in
which case it equals `(current - previous)/previous × 100`; the YTD reference
month always exists — it is the earliest tracked month of the latest month's
calendar year — so for single-month data with positive value `ytd_change` is
a defined `0` while `mom_change` is undefined. -/
theorem c3_amended_mom_ytd (df : List CRow) (ty : String) (lm : Month)
    (hlm : maxMonth? (monthsOf (filter_by_asset_type df ty)) = some lm) :
    (prevMonthOf (filter_by_asset_type df ty) lm = none →
       (calculate_asset_type_metrics df ty).mom_change = none)
    ∧ (∀ p, prevMonthOf (filter_by_asset_type df ty) lm = some p →
        (0 < sumInMonth (filter_by_asset_type df ty) p →
          (calculate_asset_type_metrics df ty).mom_change
            = some ((sumInMonth (filter_by_asset_type df ty) lm
                      - sumInMonth (filter_by_asset_type df ty) p)
                    / sumInMonth (filter_by_asset_type df ty) p * 100))
        ∧ (sumInMonth (filter_by_asset_type df ty) p ≤ 0 →
            (calculate_asset_type_metrics df ty).mom_change = none))
    ∧ (∃ ys, ytdStartOf (filter_by_asset_type df ty) lm = some ys ∧ ys.y = lm.y)
    ∧ ((∀ r ∈ filter_by_asset_type df ty, r.ts.month = lm) →
        0 < sumInMonth (filter_by_asset_type df ty) lm →
        (calculate_asset_type_metrics df ty).mom_change = none
        ∧ (calculate_asset_type_metrics df ty).ytd_change = some 0) := by
  refine ⟨?_, ?_, ?_, ?_⟩
  · intro hp
    simp only [calculate_asset_type_metrics, hlm, hp]
  · intro p hp
    constructor
    · intro hpos
      simp only [calculate_asset_type_metrics, hlm, hp]
      rw [if_pos hpos]
    · intro hneg
      simp only [calculate_asset_type_metrics, hlm, hp]
      rw [if_neg (not_lt.mpr hneg)]
  · have hlmem : lm ∈ (monthsOf (filter_by_asset_type df ty)).filter
        (fun x => decide (x.y = lm.y)) := by
      rw [List.mem_filter]
      exact ⟨maxMonth?_mem hlm, by simp⟩
    cases hys : minMonth? ((monthsOf (filter_by_asset_type df ty)).filter
        (fun x => decide (x.y = lm.y))) with
    | none =>
      rw [minMonth?_eq_none] at hys
      rw [hys] at hlmem
      simp at hlmem
    | some ys =>
      refine ⟨ys, hys, ?_⟩
      have hm := minMonth?_mem hys
      have h2 := List.mem_filter.mp hm
      simpa using h2.2
  · intro hall hpos
    have hprev : prevMonthOf (filter_by_asset_type df ty) lm = none := by
      unfold prevMonthOf
      rw [maxMonth?_eq_none, List.filter_eq_nil_iff]
      intro x hx
      obtain ⟨r, hr, hx'⟩ := List.mem_map.mp hx
      rw [← hx', hall r hr]
      simp [Month.ltP_irrefl]
    have hys : ytdStartOf (filter_by_asset_type df ty) lm = some lm := by
      unfold ytdStartOf
      cases hys0 : minMonth? ((monthsOf (filter_by_asset_type df ty)).filter
          (fun x => decide (x.y = lm.y))) with
      | none =>
        rw [minMonth?_eq_none] at hys0
        have hlmem : lm ∈ (monthsOf (filter_by_asset_type df ty)).filter
            (fun x => decide (x.y = lm.y)) := by
          rw [List.mem_filter]
          exact ⟨maxMonth?_mem hlm, by simp⟩
        rw [hys0] at hlmem
        simp at hlmem
      | some ys =>
        have hm := minMonth?_mem hys0
        have h2 := (List.mem_filter.mp hm).1
        obtain ⟨r, hr, hx'⟩ := List.mem_map.mp h2
        have hyl : ys = lm := by
          rw [← hx']
          exact hall r hr
        rw [hyl]
    constructor
    · simp only [calculate_asset_type_metrics, hlm, hprev]
    · simp only [calculate_asset_type_metrics, hlm, hys]
      rw [if_pos hpos]
      rw [sub_self, zero_div, zero_mul]

/-- Witness for C3 (amended) at a concrete two-month ledger. -/
theorem c3_amended_mom_ytd_witness :
    0 < sumInMonth (filter_by_asset_type
        [⟨"HSBC", "Savings", 1000, ⟨2024, 1, 10⟩, "Cash"⟩,
         ⟨"HSBC", "Savings", 1100, ⟨2024, 2, 15⟩, "Cash"⟩] "Cash") ⟨2024, 1⟩
    ∧ (calculate_asset_type_metrics
        [⟨"HSBC", "Savings", 1000, ⟨2024, 1, 10⟩, "Cash"⟩,
         ⟨"HSBC", "Savings", 1100, ⟨2024, 2, 15⟩, "Cash"⟩] "Cash").mom_change
      = some ((sumInMonth (filter_by_asset_type
          [⟨"HSBC", "Savings", 1000, ⟨2024, 1, 10⟩, "Cash"⟩,
           ⟨"HSBC", "Savings", 1100, ⟨2024, 2, 15⟩, "Cash"⟩] "Cash") ⟨2024, 2⟩
          - sumInMonth (filter_by_asset_type
          [⟨"HSBC", "Savings", 1000, ⟨2024, 1, 10⟩, "Cash"⟩,
           ⟨"HSBC", "Savings", 1100, ⟨2024, 2, 15⟩, "Cash"⟩] "Cash") ⟨2024, 1⟩)
          / sumInMonth (filter_by_asset_type
          [⟨"HSBC", "Savings", 1000, ⟨2024, 1, 10⟩, "Cash"⟩,
           ⟨"HSBC", "Savings", 1100, ⟨2024, 2, 15⟩, "Cash"⟩] "Cash") ⟨2024, 1⟩ * 100) := by
  constructor
  · norm_num [sumInMonth, filter_by_asset_type, Date.month]
  · exact (((c3_amended_mom_ytd
        [⟨"HSBC", "Savings", 1000, ⟨2024, 1, 10⟩, "Cash"⟩,
         ⟨"HSBC", "Savings", 1100, ⟨2024, 2, 15⟩, "Cash"⟩] "Cash" ⟨2024, 2⟩
        (by decide)).2.1 ⟨2024, 1⟩ (by decide)).1
      (by norm_num [sumInMonth, filter_by_asset_type, Date.month]))

/-- Skipna sums agree with sums of values where missing cells count 0. -/
theorem sumValues_eq_map (l : List ARow) :
    sumValues l = (l.map (fun r => r.value.getD 0)).sum := by
  induction l with
  | nil => rfl
  | cons a t ih =>
    cases ha : a.value <;>
      simp [sumValues, List.filterMap_cons, ha, ← ih, sumValues]

/-- Variant of `sum_over_keys` formulated with skipna sums. -/
theorem sum_over_keys_sumValues {κ : Type} [DecidableEq κ] (key : ARow → κ)
    (ks : List κ) (hnd : ks.Nodup) (rows : List ARow)
    (hcov : ∀ r ∈ rows, key r ∈ ks) :
    (ks.map (fun k => sumValues (rows.filter (fun r => decide (key r = k))))).sum
      = sumValues rows := by
  have h := sum_over_keys key (fun r => r.value.getD 0) ks hnd rows hcov
  rw [sumValues_eq_map rows] at *
  rw [← h]
  congr 1
  apply List.map_congr_left
  intro k _
  rw [sumValues_eq_map]

/-- Second projections of a key-value map. -/
theorem map_snd_pair_map {α β : Type} (g : α → β) :
    ∀ l : List α, ((l.map (fun k => (k, g k))).map (fun e => e.2)) = l.map g := by
  intro l
  induction l with
  | nil => rfl
  | cons a t ih => simp [ih]

/-- C4: for every ledger, grouping key and calendar month, the sum of grouped
monthly aggregates for that month equals the ungrouped monthly total — no
value is double-counted or lost by grouping. -/
theorem c4_aggregation_conservation {κ : Type} [DecidableEq κ]
    (rows : List ARow) (key : ARow → κ) (m : Month) :
    (((get_monthly_aggregation_grouped rows key).filter
        (fun e => decide (e.1.1 = m))).map (fun e => e.2)).sum
      = (((get_monthly_aggregation rows).filter
          (fun e => decide (e.1 = m))).map (fun e => e.2)).sum := by
  unfold get_monthly_aggregation_grouped get_monthly_aggregation
  rw [map_filter_comm, map_filter_comm, map_snd_pair_map, map_snd_pair_map]
  show (((rows.map (fun r => (r.ts.month, key r))).dedup.filter
      (fun k => decide (k.1 = m))).map
        (fun k => sumValues (rows.filter
          (fun r => decide ((r.ts.month, key r) = k))))).sum
    = (((rows.map (fun r => r.ts.month)).dedup.filter
        (fun mo => decide (mo = m))).map
          (fun mo => sumValues (rows.filter
            (fun r => decide (r.ts.month = mo))))).sum
  have hLHS :
      (((rows.map (fun r => (r.ts.month, key r))).dedup.filter
          (fun k => decide (k.1 = m))).map
        (fun k => sumValues (rows.filter
          (fun r => decide ((r.ts.month, key r) = k))))).sum
        = sumValues (rows.filter (fun r => decide (r.ts.month = m))) := by
    have hfix : ∀ k ∈ (rows.map (fun r => (r.ts.month, key r))).dedup.filter
        (fun k => decide (k.1 = m)),
        rows.filter (fun r => decide ((r.ts.month, key r) = k))
          = (rows.filter (fun r => decide (r.ts.month = m))).filter
              (fun r => decide ((r.ts.month, key r) = k)) := by
      intro k hk
      have hk1 : k.1 = m := by simpa using (List.mem_filter.mp hk).2
      rw [List.filter_filter]
      apply List.filter_congr
      intro r _
      by_cases h : (r.ts.month, key r) = k
      · have hm : r.ts.month = m := by rw [← hk1, ← h]
        simp [h, hm]
      · simp [h]
    rw [List.map_congr_left (fun k hk => by rw [hfix k hk])]
    apply sum_over_keys_sumValues (fun r => (r.ts.month, key r))
    · exact (List.nodup_dedup _).filter _
    · intro r hr
      rw [List.mem_filter]
      constructor
      · rw [List.mem_dedup]
        exact List.mem_map.mpr ⟨r, (List.mem_filter.mp hr).1, rfl⟩
      · have := (List.mem_filter.mp hr).2
        simpa using this
  rw [hLHS]
  rw [nodup_filter_eq_mem _ (List.nodup_dedup _) m]
  by_cases hm : m ∈ (rows.map (fun r => r.ts.month)).dedup
  · rw [if_pos hm]
    simp
  · rw [if_neg hm]
    simp only [List.map_nil, List.sum_nil]
    have hnil : rows.filter (fun r => decide (r.ts.month = m)) = [] := by
      rw [List.filter_eq_nil_iff]
      intro r hr hd
      apply hm
      rw [List.mem_dedup]
      have : r.ts.month = m := by simpa using hd
      exact List.mem_map.mpr ⟨r, hr, this⟩
    rw [hnil]
    rfl

/-- C8: when the total current portfolio value is 0, the allocation percentage
of every asset type is 0 — in both `calculate_allocation_metrics` versions —
rather than a division error. -/
theorem c8_zero_total_allocation (df : List CRow) (lm : Month)
    (hlm : maxMonth? (monthsOf df) = some lm)
    (h0 : sumInMonth df lm = 0) :
    (∀ e ∈ (dp_calculate_allocation_metrics df).entries, e.2.allocation = 0)
    ∧ (∀ e ∈ (m_calculate_allocation_metrics df).entries, e.2.allocation = 0) := by
  constructor
  · intro e he
    simp only [dp_calculate_allocation_metrics, hlm] at he
    obtain ⟨ty, _, he2⟩ := List.mem_map.mp he
    rw [← he2]
    simp [h0]
  · intro e he
    simp only [m_calculate_allocation_metrics, hlm] at he
    obtain ⟨ty, _, he2⟩ := List.mem_map.mp he
    rw [← he2]
    simp [h0]

/-- Witness for C8 at a concrete two-row ledger with zero total. -/
theorem c8_zero_total_allocation_witness :
    (∀ e ∈ (dp_calculate_allocation_metrics
        [⟨"P", "A1", 5, ⟨2024, 3, 1⟩, "Cash"⟩,
         ⟨"P", "A2", -5, ⟨2024, 3, 2⟩, "Investments"⟩]).entries, e.2.allocation = 0)
    ∧ (∀ e ∈ (m_calculate_allocation_metrics
        [⟨"P", "A1", 5, ⟨2024, 3, 1⟩, "Cash"⟩,
         ⟨"P", "A2", -5, ⟨2024, 3, 2⟩, "Investments"⟩]).entries, e.2.allocation = 0) :=
  c8_zero_total_allocation
    [⟨"P", "A1", 5, ⟨2024, 3, 1⟩, "Cash"⟩,
     ⟨"P", "A2", -5, ⟨2024, 3, 2⟩, "Investments"⟩] ⟨2024, 3⟩
    (by decide) (by norm_num [sumInMonth, Date.month])

/-- Every element of a `zipWith` comes from a pair of member elements. -/
theorem mem_zipWith_exists {α β γ : Type} (f : α → β → γ) :
    ∀ (l₁ : List α) (l₂ : List β), ∀ x ∈ List.zipWith f l₁ l₂,
      ∃ a b, a ∈ l₁ ∧ b ∈ l₂ ∧ x = f a b := by
  intro l₁
  induction l₁ with
  | nil => intro l₂ x h; simp at h
  | cons a t ih =>
    intro l₂ x hx
    cases l₂ with
    | nil => simp at hx
    | cons b t' =>
      simp only [List.zipWith_cons_cons] at hx
      rcases List.mem_cons.mp hx with h1 | h2
      · exact ⟨a, b, List.mem_cons_self a t, List.mem_cons_self b t', h1⟩
      · obtain ⟨a', b', ha, hb, hx'⟩ := ih t' x h2
        exact ⟨a', b', List.mem_cons_of_mem _ ha, List.mem_cons_of_mem _ hb, hx'⟩

/-- C5 (counterexample): the claim asserts every computed drawdown is ≤ 0 for
every value series.  With a negative running maximum the quotient flips sign:
the series `[-5, -10]` yields drawdowns `[0, 1]` and `1 > 0`. -/
theorem c5_counterexample :
    drawdownCol [-5, -10] = [some 0, some 1] ∧ ¬ ((1 : ℚ) ≤ 0) := by
  refine ⟨?_, by norm_num⟩
  norm_num [drawdownCol, runningMax, runningMaxAux]

/-- C5 (amended): for every series whose running maxima are all strictly
positive, each drawdown point equals `(value - running_max)/running_max`
computed causally, is ≤ 0, and is exactly 0 where the value attains the
running maximum; and the final entry of the expanding-minimum column
(`Max_Drawdown`) is the minimum of the drawdown series. -/
theorem c5_amended_drawdown (l : List ℚ)
    (hpos : ∀ p ∈ runningMax l, 0 < p) (hne : l ≠ []) :
    (∀ pr ∈ List.zip (List.zip l (runningMax l)) (drawdownCol l),
       pr.2 = some ((pr.1.1 - pr.1.2) / pr.1.2)
       ∧ (∃ q, pr.2 = some q ∧ q ≤ 0)
       ∧ (pr.1.1 = pr.1.2 → pr.2 = some 0))
    ∧ (∃ mdd, (expandingMinOpt (drawdownCol l)).getLast? = some (some mdd)
        ∧ some mdd ∈ drawdownCol l
        ∧ ∀ q : ℚ, some q ∈ drawdownCol l → mdd ≤ q) := by
  constructor
  · rintro ⟨⟨v, p⟩, d⟩ hpr
    have hrel := zip_zipWith_rel
      (fun v p => if p = 0 then none else some ((v - p) / p)) l (runningMax l)
      (((v, p)), d) hpr
    simp only at hrel
    have hm := List.of_mem_zip hpr
    have hv : (v, p) ∈ List.zip l (runningMax l) := hm.1
    have hp : p ∈ runningMax l := (List.of_mem_zip hv).2
    have hp0 : 0 < p := hpos p hp
    have hvp : v ≤ p := zip_runningMax_le l (v, p) hv
    have hne0 : ¬ (p = 0) := ne_of_gt hp0
    rw [if_neg hne0] at hrel
    have hq0 : (v - p) / p ≤ 0 := by
      apply div_nonpos_of_nonpos_of_nonneg
      · linarith
      · exact le_of_lt hp0
    have h3 : v = p → d = some 0 := by
      intro hvv
      rw [hrel, hvv, sub_self, zero_div]
    exact ⟨hrel, ⟨(v - p) / p, hrel, hq0⟩, h3⟩
  · have hall : ∀ x ∈ drawdownCol l, ∃ y, x = some y := by
      intro x hx
      unfold drawdownCol at hx
      obtain ⟨v, p, _, hp, hx'⟩ := mem_zipWith_exists _ l (runningMax l) x hx
      have hp0 : 0 < p := hpos p hp
      rw [hx', if_neg (ne_of_gt hp0)]
      exact ⟨_, rfl⟩
    obtain ⟨q, hq⟩ := all_some_eq_map _ hall
    have hqne : q ≠ [] := by
      intro h0
      rw [h0] at hq
      simp at hq
      have := drawdownCol_length l
      rw [hq] at this
      exact hne (List.length_eq_zero.mp this.symm)
    obtain ⟨v, hv1, hv2, hv3⟩ := expandingMin_getLast_spec q hqne
    refine ⟨v, ?_, ?_, ?_⟩
    · rw [hq, expandingMinOpt_map_some, List.getLast?_map, hv1]
      rfl
    · rw [hq]
      exact List.mem_map_of_mem some hv2
    · intro q' hq'
      rw [hq] at hq'
      obtain ⟨a, ha, ha2⟩ := List.mem_map.mp hq'
      have : a = q' := by simpa using ha2
      rw [← this]
      exact hv3 a ha

/-- Witness for C5 (amended) at a concrete positive series. -/
theorem c5_amended_drawdown_witness :
    (∀ pr ∈ List.zip (List.zip [100, 80, 120, 60] (runningMax [100, 80, 120, 60]))
        (drawdownCol [100, 80, 120, 60]),
       pr.2 = some ((pr.1.1 - pr.1.2) / pr.1.2)
       ∧ (∃ q, pr.2 = some q ∧ q ≤ 0)
       ∧ (pr.1.1 = pr.1.2 → pr.2 = some 0))
    ∧ (∃ mdd, (expandingMinOpt (drawdownCol [100, 80, 120, 60])).getLast?
          = some (some mdd)
        ∧ some mdd ∈ drawdownCol [100, 80, 120, 60]
        ∧ ∀ q : ℚ, some q ∈ drawdownCol [100, 80, 120, 60] → mdd ≤ q) :=
  c5_amended_drawdown [100, 80, 120, 60]
    (by norm_num [runningMax, runningMaxAux]) (by simp)

/-- C6 (counterexample): the claim says a zero running max is guarded — the
point yields 0 or is skipped.  The code divides anyway: numpy produces a
non-finite placeholder (NaN/±inf, modelled `none`), the point stays in the
series, and its value is not 0. -/
theorem c6_counterexample :
    drawdownCol [0, 1] = [none, some 0]
    ∧ (drawdownCol [0, 1]).length = 2
    ∧ (none : Option ℚ) ≠ some 0 := by
  refine ⟨?_, ?_, by simp⟩
  · norm_num [drawdownCol, runningMax, runningMaxAux]
  · norm_num [drawdownCol, runningMax, runningMaxAux]

/-- C6 (amended): the division is not guarded.  At every point whose running
max is zero the drawdown cell holds no finite value (`none`, the NaN/±inf
placeholder) — not 0 — and no point is skipped (the column keeps the series
length).  No exception is possible: the computation is total. -/
theorem c6_amended_unguarded (l : List ℚ) (i : Nat)
    (h0 : (runningMax l)[i]? = some 0) :
    (drawdownCol l).length = l.length ∧ (drawdownCol l)[i]? = some none := by
  refine ⟨drawdownCol_length l, ?_⟩
  have hi : i < (runningMax l).length := by
    by_contra hge
    rw [List.getElem?_eq_none (Nat.le_of_not_lt hge)] at h0
    simp at h0
  have hil : i < l.length := by
    rw [runningMax_length] at hi
    exact hi
  obtain ⟨v, hv⟩ : ∃ v, l[i]? = some v := ⟨l[i], List.getElem?_eq_getElem hil⟩
  unfold drawdownCol
  rw [zipWith_getElem?, hv, h0]
  simp

/-- Witness for C6 (amended) at the concrete series `[0, 1]`. -/
theorem c6_amended_unguarded_witness :
    (drawdownCol [0, 1]).length = ([0, 1] : List ℚ).length
    ∧ (drawdownCol [0, 1])[0]? = some none :=
  c6_amended_unguarded [0, 1] 0 (by norm_num [runningMax, runningMaxAux])

end FinTracker
